import Mathlib

/-!
Shallow embedding of `src/bot.py` (TeleM1_bot), the indicator signal engine:
indicator computation (`analyze`, lines 39-92), the scan loop with its
per-key cooldown (`scan_market`, lines 95-127), and the win/loss tally
(`summary` / `daily_report`, lines 148-164).

Closing prices are modelled as `List ℚ` (the float pipeline never produces
NaN/inf except in the RSI division, which is modelled explicitly by
`Option ℚ`); timestamps as `ℤ` seconds.
-/

namespace Bot

/-- Trading mode: `"AGGRESSIVE"` for the M1 timeframe, `"SAFE"` for M5
(line 102 of the source). -/
inductive Mode
  | AGGRESSIVE
  | SAFE
  deriving DecidableEq, Repr

/-- Directional verdict. The Python `analyze` returns the strings
`"BUY"` / `"SELL"` or `None`; we model its result as `Option Verdict`
(`none` = the NONE / no-signal outcome). -/
inductive Verdict
  | BUY
  | SELL
  deriving DecidableEq, Repr

/-- One step of pandas `ewm(span=n, adjust=False).mean()`:
`ema_i = a*close_i + (1-a)*ema_(i-1)`. -/
def emaStep (a prev x : ℚ) : ℚ := a * x + (1 - a) * prev

/-- Tail of the EMA recursion, continuing from accumulator `prev`. -/
def emaFrom (a prev : ℚ) : List ℚ → List ℚ
  | [] => []
  | x :: xs => emaStep a prev x :: emaFrom a (emaStep a prev x) xs

/-- pandas `Series.ewm(span, adjust=False).mean()` over a whole series:
seeded by the first value (`ema[0] = close[0]`), then the recursion. -/
def ewmMean (a : ℚ) : List ℚ → List ℚ
  | [] => []
  | x :: xs => x :: emaFrom a x xs

/-- Smoothing factor of `ewm(span=n)`: `a = 2/(n+1)`. -/
def alpha (n : ℕ) : ℚ := 2 / ((n : ℚ) + 1)

/-- Period-over-period differences, pandas `Series.diff()` with the leading
NaN dropped: element `i` is `close[i+1] - close[i]`. -/
def deltas (c : List ℚ) : List ℚ := List.zipWith (fun a b => b - a) c c.tail

/-- The last `n` elements of a list: the window that `rolling(n)` sees at the
final bar. -/
def lastN (n : ℕ) (l : List ℚ) : List ℚ := l.drop (l.length - n)

/-- Line 60: `gain = delta.clip(lower=0).rolling(14).mean()` at the final
bar — the mean of the positive parts of the last 14 deltas. -/
def avgGain (c : List ℚ) : ℚ := ((lastN 14 (deltas c)).map (fun d => max d 0)).sum / 14

/-- Line 61: `loss = -delta.clip(upper=0).rolling(14).mean()` at the final
bar — the mean of the loss magnitudes `max (-d) 0 = -(min d 0)` of the last
14 deltas (negating the mean equals the mean of the negations). -/
def avgLoss (c : List ℚ) : ℚ := ((lastN 14 (deltas c)).map (fun d => max (-d) 0)).sum / 14

/-- Lines 59-63 at the final bar: `rs = gain/loss`, `rsi = 100 - 100/(1+rs)`
under IEEE float semantics, with `none` for NaN. With fewer than 14 deltas the
rolling mean is NaN (`rolling(14)` needs a full window). When `avg_loss > 0`
the value is finite. When `avg_loss = 0` and `avg_gain > 0`, `rs = +inf` so
`100/(1+rs) = 0` and `rsi = 100`. When both are 0, `rs = 0/0 = NaN` and the
RSI is NaN. -/
def rsiLast (c : List ℚ) : Option ℚ :=
  if (deltas c).length < 14 then none
  else if 0 < avgLoss c then some (100 - 100 / (1 + avgGain c / avgLoss c))
  else if 0 < avgGain c then some 100
  else none

/-- The latest value of a series, `iloc[-1]` (default 0 is never reached on
the guarded, nonempty inputs). -/
def lastD (l : List ℚ) : ℚ := l.getLast?.getD 0

/-- The four scalar values lines 54-77 derive from the close series: latest
EMA(50), latest EMA(200), latest RSI(14) (`none` for NaN), latest MACD
histogram value. -/
structure Snapshot where
  ema_fast : ℚ
  ema_slow : ℚ
  rsi : Option ℚ
  hist : ℚ
  deriving DecidableEq, Repr

/-- Lines 54-74: compute EMA(50), EMA(200), RSI(14) and the MACD histogram
(`macd = ema12 - ema26`, `signal line = ewm(macd, 9)`, `hist = macd - signal
line`) and take each series' latest value. -/
def computeSnapshot (close : List ℚ) : Snapshot :=
  let ema50 := ewmMean (alpha 50) close
  let ema200 := ewmMean (alpha 200) close
  let ema12 := ewmMean (alpha 12) close
  let ema26 := ewmMean (alpha 26) close
  let macd := List.zipWith (fun a b => a - b) ema12 ema26
  let macdSig := ewmMean (alpha 9) macd
  let hist := List.zipWith (fun a b => a - b) macd macdSig
  { ema_fast := lastD ema50
    ema_slow := lastD ema200
    rsi := rsiLast close
    hist := lastD hist }

/-- Float comparison chain `lo <= rsi_val <= hi`: false when `rsi_val` is NaN
(`none`), the ordinary comparison otherwise. -/
def rsiInRange (r : Option ℚ) (lo hi : ℚ) : Bool :=
  match r with
  | none => false
  | some x => decide (lo ≤ x) && decide (x ≤ hi)

/-- Lines 76-92, the signal logic: trend gate `bullish = ema50 > ema200`,
`bearish = ema50 < ema200`, then the per-mode threshold rows, else `None`. -/
def classify (mode : Mode) (s : Snapshot) : Option Verdict :=
  let bullish := decide (s.ema_slow < s.ema_fast)
  let bearish := decide (s.ema_fast < s.ema_slow)
  match mode with
  | Mode.AGGRESSIVE =>
      if bullish && rsiInRange s.rsi 45 65 && decide ((0 : ℚ) < s.hist) then some Verdict.BUY
      else if bearish && rsiInRange s.rsi 35 55 && decide (s.hist < 0) then some Verdict.SELL
      else none
  | Mode.SAFE =>
      if bullish && rsiInRange s.rsi 48 60 && decide ((0 : ℚ) < s.hist) then some Verdict.BUY
      else if bearish && rsiInRange s.rsi 40 52 && decide (s.hist < 0) then some Verdict.SELL
      else none

/-- Lines 40-49 plus 52-74 as the Indicator Calculator: the provider result
(`df`, `none` when `yf.download` indicates unavailability) is guarded by
`if df is None or df.empty or len(df) < 200: return None`, otherwise the
snapshot of the latest bar is computed. -/
def calcSnapshot (df : Option (List ℚ)) : Option Snapshot :=
  match df with
  | none => none
  | some close => if close.length < 200 then none else some (computeSnapshot close)

/-- Lines 39-92, `analyze`: fetch is abstracted into the `df` argument; the
insufficient-data guard returns `None`, otherwise the classifier runs on the
latest-bar snapshot. -/
def analyze (df : Option (List ℚ)) (mode : Mode) : Option Verdict :=
  match calcSnapshot df with
  | none => none
  | some s => classify mode s

/-- Lines 18-25, the configured instruments (display name, provider symbol). -/
def PAIRS : List (String × String) :=
  [("EURUSD", "EURUSD=X"), ("GBPUSD", "GBPUSD=X"), ("USDJPY", "JPY=X"),
   ("AUDUSD", "AUDUSD=X"), ("USDCHF", "CHF=X"), ("USDCAD", "CAD=X")]

/-- Lines 27-30, the configured timeframes (label, provider interval). -/
def TIMEFRAMES : List (String × String) := [("M1", "1m"), ("M5", "5m")]

/-- Cooldown key: (pair, timeframe label); the Python key is the string
`f"{pair}_{tf_name}"`, injective in the two components. -/
abbrev Key := String × String

/-- Line 108's window: `60 if tf_name == "M1" else 300` (seconds). -/
def window (tf : String) : ℤ := if tf = "M1" then 60 else 300

/-- Line 102: `mode = "AGGRESSIVE" if tf_name == "M1" else "SAFE"`. -/
def modeOf (tf : String) : Mode := if tf = "M1" then Mode.AGGRESSIVE else Mode.SAFE

/-- Python `(now - t0).seconds`: the seconds-of-day component of the
normalized timedelta, i.e. `(now - t0) mod 86400` with a result in
`[0, 86400)` (Euclidean mod; times in whole seconds), NOT the total elapsed
seconds. -/
def elapsedSecondsField (now t0 : ℤ) : ℤ := (now - t0) % 86400

/-- Lines 107-109: a key is allowed (not skipped by `continue`) iff it has no
entry in `last_signal_time` or `(now - last_signal_time[key]).seconds` is not
below its timeframe's window. -/
def allowKey (st : Key → Option ℤ) (k : Key) (now : ℤ) : Bool :=
  match st k with
  | none => true
  | some t0 => !(decide (elapsedSecondsField now t0 < window k.2))

/-- Line 127: `last_signal_time[key] = now`. -/
def recordKey (st : Key → Option ℤ) (k : Key) (now : ℤ) : Key → Option ℤ :=
  fun k2 => if k2 = k then some now else st k2

/-- State threaded through one tick of the scan loop: the
`last_signal_time` mapping plus the messages sent so far (instrument key and
direction; formatting is plumbing). -/
structure TickState where
  st : Key → Option ℤ
  emits : List (Key × Verdict)

/-- Lines 104-127, the body of the double loop for one key: skip if the
cooldown gate blocks, otherwise run `analyze` on the fetched series; on a
non-`None` direction send the message and update `last_signal_time[key]`. -/
def scanStep (fetch : Key → Option (List ℚ)) (now : ℤ) (acc : TickState) (k : Key) :
    TickState :=
  if allowKey acc.st k now then
    match analyze (fetch k) (modeOf k.2) with
    | some d => ⟨recordKey acc.st k now, acc.emits ++ [(k, d)]⟩
    | none => acc
  else acc

/-- Lines 95-127, `scan_market`: if `bot_active` is false the tick does
nothing; otherwise every (pair, timeframe) key is processed in order by
`scanStep`. The provider is abstracted as `fetch` (`none` = error/empty
download, per the provider contract) and the tick's clock reading as `now`. -/
def scan_market (active : Bool) (keys : List Key) (fetch : Key → Option (List ℚ))
    (st : Key → Option ℤ) (now : ℤ) : TickState :=
  if active then keys.foldl (scanStep fetch now) ⟨st, []⟩ else ⟨st, []⟩

/-- Line 33: `stats = {"win": 0, "loss": 0}`. -/
structure Tally where
  win : ℕ
  loss : ℕ
  deriving DecidableEq, Repr

/-- Lines 149-150 and 157-158: `rate = (win / total * 100) if total > 0 else 0`. -/
def winrate (t : Tally) : ℚ :=
  if 0 < t.win + t.loss then (t.win : ℚ) / ((t.win : ℚ) + (t.loss : ℚ)) * 100 else 0

/-- Lines 148-153, `summary`: reads the tally and reports the winrate
(the reply text is plumbing); the counters are not modified. -/
def summary (t : Tally) : ℚ := winrate t

/-- Lines 156-164, `daily_report`: reports the winrate, then resets both
counters to zero. Result: (reported winrate, tally afterwards). -/
def daily_report (t : Tally) : ℚ × Tally := (winrate t, ⟨0, 0⟩)

/- ===================== Helper lemmas ===================== -/

theorem chain_eq_buy_iff (p q : Prop) [Decidable p] [Decidable q] :
    (if p then some Verdict.BUY else if q then some Verdict.SELL else none) =
        some Verdict.BUY ↔ p := by
  split_ifs with h1 h2 <;> simp_all

theorem chain_eq_sell_iff (p q : Prop) [Decidable p] [Decidable q] :
    (if p then some Verdict.BUY else if q then some Verdict.SELL else none) =
        some Verdict.SELL ↔ (¬p ∧ q) := by
  split_ifs with h1 h2 <;> simp_all

theorem zipSub_replicate (v : ℚ) :
    ∀ n : ℕ, List.zipWith (fun a b => b - a) (List.replicate (n + 1) v) (List.replicate n v) =
      List.replicate n (0 : ℚ)
  | 0 => by simp
  | n + 1 => by
      show List.zipWith _ (v :: List.replicate (n + 1) v) (v :: List.replicate n v) = _
      rw [List.zipWith_cons_cons, zipSub_replicate v n, sub_self]
      rfl

theorem deltas_replicate (m : ℕ) (v : ℚ) :
    deltas (List.replicate m v) = List.replicate (m - 1) (0 : ℚ) := by
  cases m with
  | zero => simp [deltas]
  | succ n =>
      show List.zipWith _ (List.replicate (n + 1) v) (v :: List.replicate n v).tail = _
      rw [show (v :: List.replicate n v).tail = List.replicate n v from rfl,
        zipSub_replicate v n]
      rfl

theorem avgGain_replicate (m : ℕ) (v : ℚ) : avgGain (List.replicate m v) = 0 := by
  unfold avgGain
  rw [deltas_replicate]
  have hz : ∀ x ∈ (lastN 14 (List.replicate (m - 1) (0 : ℚ))).map (fun d => max d 0), x = 0 := by
    intro x hx
    simp only [List.mem_map] at hx
    obtain ⟨d, hd, rfl⟩ := hx
    have hmem : d ∈ List.replicate (m - 1) (0 : ℚ) := List.mem_of_mem_drop hd
    rw [List.eq_of_mem_replicate hmem]
    simp
  rw [List.sum_eq_zero hz]
  simp

theorem avgLoss_replicate (m : ℕ) (v : ℚ) : avgLoss (List.replicate m v) = 0 := by
  unfold avgLoss
  rw [deltas_replicate]
  have hz : ∀ x ∈ (lastN 14 (List.replicate (m - 1) (0 : ℚ))).map (fun d => max (-d) 0),
      x = 0 := by
    intro x hx
    simp only [List.mem_map] at hx
    obtain ⟨d, hd, rfl⟩ := hx
    have hmem : d ∈ List.replicate (m - 1) (0 : ℚ) := List.mem_of_mem_drop hd
    rw [List.eq_of_mem_replicate hmem]
    simp
  rw [List.sum_eq_zero hz]
  simp

theorem rsiLast_replicate (m : ℕ) (v : ℚ) (h : 15 ≤ m) :
    rsiLast (List.replicate m v) = none := by
  have h14 : ¬(m - 1 < 14) := by omega
  simp [rsiLast, deltas_replicate, avgGain_replicate, avgLoss_replicate, h14]

theorem emaFrom_const (a v : ℚ) : ∀ m, ∀ e ∈ emaFrom a v (List.replicate m v), e = v := by
  intro m
  induction m with
  | zero => intro e he; simp [emaFrom] at he
  | succ n ih =>
      intro e he
      have hstep : emaStep a v v = v := by unfold emaStep; ring
      simp only [List.replicate_succ, emaFrom, hstep, List.mem_cons] at he
      rcases he with rfl | he
      · rfl
      · exact ih e he

/- ===================== Claim theorems ===================== -/

/-- C8: EMA constant-series identity — for every span `n`, length `m` and
value `v`, every entry of the EMA series (smoothing factor `2/(n+1)`, seeded
by the first value) of the constant series `replicate m v` equals `v`. -/
theorem ema_const_series (n m : ℕ) (v : ℚ) :
    ∀ e ∈ ewmMean (alpha n) (List.replicate m v), e = v := by
  intro e he
  cases m with
  | zero => simp [ewmMean] at he
  | succ m' =>
      simp only [List.replicate_succ, ewmMean, List.mem_cons] at he
      rcases he with rfl | he
      · rfl
      · exact emaFrom_const (alpha n) v m' e he

/-- C8 witness: the EMA(50) of a constant series of three 2s contains 2, and
the theorem instantiates to `2 = 2` there. -/
theorem ema_const_series_witness :
    ((2 : ℚ) ∈ ewmMean (alpha 50) (List.replicate 3 (2 : ℚ))) ∧ (2 : ℚ) = 2 :=
  ⟨by decide, ema_const_series 50 3 2 2 (by decide)⟩

/-- C1: the classifier implements exactly the mode threshold table. With a
defined RSI value `r`, the verdict is BUY iff the trend is bullish
(`ema_fast > ema_slow`), the histogram is positive and `r` lies in [45,65]
(AGGRESSIVE) resp. [48,60] (SAFE); it is SELL iff the trend is bearish, the
histogram is negative and `r` lies in [35,55] resp. [40,52]; since these are
iffs over the three-valued result, every other case (equal EMAs, `r = 70`,
...) yields NONE. -/
theorem classifier_threshold_table (s : Snapshot) (r : ℚ) (h : s.rsi = some r) :
    (classify Mode.AGGRESSIVE s = some Verdict.BUY ↔
      s.ema_slow < s.ema_fast ∧ 0 < s.hist ∧ 45 ≤ r ∧ r ≤ 65) ∧
    (classify Mode.AGGRESSIVE s = some Verdict.SELL ↔
      s.ema_fast < s.ema_slow ∧ s.hist < 0 ∧ 35 ≤ r ∧ r ≤ 55) ∧
    (classify Mode.SAFE s = some Verdict.BUY ↔
      s.ema_slow < s.ema_fast ∧ 0 < s.hist ∧ 48 ≤ r ∧ r ≤ 60) ∧
    (classify Mode.SAFE s = some Verdict.SELL ↔
      s.ema_fast < s.ema_slow ∧ s.hist < 0 ∧ 40 ≤ r ∧ r ≤ 52) := by
  have hbb : ¬(s.ema_slow < s.ema_fast ∧ s.ema_fast < s.ema_slow) :=
    fun hc => absurd hc.2 (lt_asymm hc.1)
  have hhh : ¬((0 : ℚ) < s.hist ∧ s.hist < 0) :=
    fun hc => absurd hc.2 (lt_asymm hc.1)
  simp only [classify, rsiInRange, h, Bool.and_eq_true, decide_eq_true_eq]
  simp only [chain_eq_buy_iff, chain_eq_sell_iff]
  refine ⟨by tauto, by tauto, by tauto, by tauto⟩

/-- C1 witness: the spec's end-to-end scenario 1 snapshot
(ema_fast = 1.0010 > ema_slow = 1.0000, rsi = 55, histogram = +0.0002) in
AGGRESSIVE mode: the table iffs hold there (and resolve to BUY). -/
theorem classifier_threshold_table_witness :
    (Snapshot.mk (1001 / 1000) 1 (some 55) (2 / 10000)).rsi = some 55 ∧
    ((classify Mode.AGGRESSIVE (Snapshot.mk (1001 / 1000) 1 (some 55) (2 / 10000)) =
        some Verdict.BUY ↔
      (1 : ℚ) < 1001 / 1000 ∧ (0 : ℚ) < 2 / 10000 ∧ (45 : ℚ) ≤ 55 ∧ (55 : ℚ) ≤ 65) ∧
    (classify Mode.AGGRESSIVE (Snapshot.mk (1001 / 1000) 1 (some 55) (2 / 10000)) =
        some Verdict.SELL ↔
      (1001 / 1000 : ℚ) < 1 ∧ (2 / 10000 : ℚ) < 0 ∧ (35 : ℚ) ≤ 55 ∧ (55 : ℚ) ≤ 55) ∧
    (classify Mode.SAFE (Snapshot.mk (1001 / 1000) 1 (some 55) (2 / 10000)) =
        some Verdict.BUY ↔
      (1 : ℚ) < 1001 / 1000 ∧ (0 : ℚ) < 2 / 10000 ∧ (48 : ℚ) ≤ 55 ∧ (55 : ℚ) ≤ 60) ∧
    (classify Mode.SAFE (Snapshot.mk (1001 / 1000) 1 (some 55) (2 / 10000)) =
        some Verdict.SELL ↔
      (1001 / 1000 : ℚ) < 1 ∧ (2 / 10000 : ℚ) < 0 ∧ (40 : ℚ) ≤ 55 ∧ (55 : ℚ) ≤ 52)) :=
  ⟨rfl, classifier_threshold_table (Snapshot.mk (1001 / 1000) 1 (some 55) (2 / 10000)) 55 rfl⟩

/-- C2: the Indicator Calculator never yields a partial snapshot or a signal
on short data — for an unavailable series or one with fewer than 200 closes,
both the snapshot and the verdict of `analyze` are `none`; with at least 200
closes the snapshot of the latest bar is produced. -/
theorem insufficient_data_guard :
    (∀ (df : Option (List ℚ)) (mode : Mode), (∀ c, df = some c → c.length < 200) →
        calcSnapshot df = none ∧ analyze df mode = none) ∧
    (∀ c : List ℚ, 200 ≤ c.length → calcSnapshot (some c) = some (computeSnapshot c)) := by
  constructor
  · intro df mode h
    match df with
    | none => exact ⟨rfl, rfl⟩
    | some c =>
        have hc := h c rfl
        exact ⟨by simp [calcSnapshot, hc], by simp [analyze, calcSnapshot, hc]⟩
  · intro c hc
    simp [calcSnapshot, Nat.not_lt.mpr hc]

/-- C2 witness: a 10-bar series yields no snapshot and no verdict; a 200-bar
series yields the snapshot of its latest bar. -/
theorem insufficient_data_guard_witness :
    (calcSnapshot (some (List.replicate 10 (1 : ℚ))) = none ∧
      analyze (some (List.replicate 10 (1 : ℚ))) Mode.SAFE = none) ∧
    calcSnapshot (some (List.replicate 200 (1 : ℚ))) =
      some (computeSnapshot (List.replicate 200 (1 : ℚ))) :=
  ⟨insufficient_data_guard.1 (some (List.replicate 10 (1 : ℚ))) Mode.SAFE
      (fun c hc => by
        injection hc with h2
        subst h2
        rw [List.length_replicate]
        norm_num),
   insufficient_data_guard.2 (List.replicate 200 (1 : ℚ))
      (by rw [List.length_replicate])⟩

/-- C10 (implicit): when the latest RSI is undefined (NaN, `rsiLast = none`),
`analyze` emits no signal — every RSI range comparison fails on an undefined
value, so neither BUY nor SELL can be returned. -/
theorem nan_rsi_no_signal (c : List ℚ) (mode : Mode) (h : rsiLast c = none) :
    analyze (some c) mode = none := by
  unfold analyze calcSnapshot
  by_cases hlen : c.length < 200
  · simp [hlen]
  · have hr : (computeSnapshot c).rsi = none := by
      rw [show (computeSnapshot c).rsi = rsiLast c from rfl, h]
    cases mode <;> simp [hlen, classify, rsiInRange, hr]

/-- C10 witness: 200 constant closes give zero average gain and loss, hence an
undefined RSI, and `analyze` returns no verdict. -/
theorem nan_rsi_no_signal_witness :
    analyze (some (List.replicate 200 (1 : ℚ))) Mode.AGGRESSIVE = none :=
  nan_rsi_no_signal (List.replicate 200 (1 : ℚ)) Mode.AGGRESSIVE
    (rsiLast_replicate 200 1 (by norm_num))

/-- C6 counterexample: the constant series of 15 equal closes has exactly 14
deltas and zero average loss, yet the code's RSI is NaN (`none`), not 100 —
`rs = 0/0` propagates NaN instead of the claimed fallback. -/
theorem rsi_zero_loss_counterexample :
    avgLoss (List.replicate 15 (1 : ℚ)) = 0 ∧
    (deltas (List.replicate 15 (1 : ℚ))).length = 14 ∧
    rsiLast (List.replicate 15 (1 : ℚ)) ≠ some 100 := by
  refine ⟨avgLoss_replicate 15 1, ?_, ?_⟩
  · rw [deltas_replicate, List.length_replicate]
  · rw [rsiLast_replicate 15 1 (le_refl 15)]
    simp

/-- C6 amended: on a full 14-delta window with zero average loss, the RSI is
exactly 100 when the average gain is positive (IEEE `rs = +inf`); when the
average gain is also zero the RSI is NaN (`none`), and an undefined RSI
always classifies to NONE, so the invalid value never yields a BUY/SELL
decision. -/
theorem rsi_zero_loss_fallback (c : List ℚ) (hlen : ¬((deltas c).length < 14))
    (h : avgLoss c = 0) :
    (0 < avgGain c → rsiLast c = some 100) ∧
    (avgGain c = 0 → rsiLast c = none ∧
      ∀ (mode : Mode) (e1 e2 hv : ℚ), classify mode ⟨e1, e2, rsiLast c, hv⟩ = none) := by
  constructor
  · intro hg
    rw [rsiLast, if_neg hlen, if_neg (by rw [h]; exact lt_irrefl 0), if_pos hg]
  · intro hg0
    have hnone : rsiLast c = none := by
      rw [rsiLast, if_neg hlen, if_neg (by rw [h]; exact lt_irrefl 0),
        if_neg (by rw [hg0]; exact lt_irrefl 0)]
    refine ⟨hnone, fun mode e1 e2 hv => ?_⟩
    cases mode <;> simp [classify, rsiInRange, hnone]

/-- C6 witness: 14 flat closes then one up-tick gives zero loss, positive
gain, RSI exactly 100; a constant 16-bar series gives zero loss and zero
gain, RSI undefined. -/
theorem rsi_zero_loss_fallback_witness :
    rsiLast (List.replicate 14 (1 : ℚ) ++ [2]) = some 100 ∧
    rsiLast (List.replicate 16 (3 : ℚ)) = none :=
  ⟨(rsi_zero_loss_fallback (List.replicate 14 (1 : ℚ) ++ [2])
        (by norm_num [deltas, List.replicate_succ])
        (by norm_num [avgLoss, lastN, deltas, List.replicate_succ])).1
      (by norm_num [avgGain, lastN, deltas, List.replicate_succ]),
   ((rsi_zero_loss_fallback (List.replicate 16 (3 : ℚ))
        (by rw [deltas_replicate, List.length_replicate]; omega)
        (avgLoss_replicate 16 3)).2 (avgGain_replicate 16 3)).1⟩

theorem avgGain_nonneg (c : List ℚ) : 0 ≤ avgGain c := by
  unfold avgGain
  apply div_nonneg _ (by norm_num)
  apply List.sum_nonneg
  intro x hx
  simp only [List.mem_map] at hx
  obtain ⟨d, _, rfl⟩ := hx
  exact le_max_right d 0

/-- C7 counterexample: a constant 16-bar series has 15 deltas, all of them
nonnegative (a never-decreasing series), yet the code's RSI is NaN (`none`) —
in particular it is not a value in [0, 100] and not 100. -/
theorem rsi_bounds_counterexample :
    ((deltas (List.replicate 16 (1 : ℚ))).all fun d => decide (0 ≤ d)) = true ∧
    (deltas (List.replicate 16 (1 : ℚ))).length = 15 ∧
    rsiLast (List.replicate 16 (1 : ℚ)) = none := by
  refine ⟨?_, ?_, rsiLast_replicate 16 1 (by norm_num)⟩
  · rw [deltas_replicate]
    decide
  · rw [deltas_replicate, List.length_replicate]

/-- C7 amended: whenever the code's RSI is defined, it lies in the closed
interval [0, 100]; and a full 14-delta window that never decreases and is not
everywhere flat (all deltas nonnegative, at least one positive) yields RSI
exactly 100. An everywhere-flat window instead yields NaN, no value at all
(see the counterexample). -/
theorem rsi_bounds (c : List ℚ) :
    (∀ x, rsiLast c = some x → 0 ≤ x ∧ x ≤ 100) ∧
    (¬((deltas c).length < 14) → (∀ d ∈ lastN 14 (deltas c), 0 ≤ d) →
      (∃ d ∈ lastN 14 (deltas c), 0 < d) → rsiLast c = some 100) := by
  constructor
  · intro x hx
    unfold rsiLast at hx
    split_ifs at hx with h1 h2 h3
    · injection hx with hx
      subst hx
      have hg : 0 ≤ avgGain c := avgGain_nonneg c
      have hr : 0 ≤ avgGain c / avgLoss c := div_nonneg hg (le_of_lt h2)
      have h1r : (1 : ℚ) ≤ 1 + avgGain c / avgLoss c := by linarith
      have hpos : 0 < 100 / (1 + avgGain c / avgLoss c) := by positivity
      have hle : 100 / (1 + avgGain c / avgLoss c) ≤ 100 :=
        div_le_self (by norm_num) h1r
      constructor <;> linarith
    · injection hx with hx
      subst hx
      norm_num
  · rintro hlen hall ⟨d0, hd0, hd0pos⟩
    have hloss : avgLoss c = 0 := by
      unfold avgLoss
      rw [List.sum_eq_zero, zero_div]
      intro x hx
      simp only [List.mem_map] at hx
      obtain ⟨d, hd, rfl⟩ := hx
      have hdn : (0 : ℚ) ≤ d := hall d hd
      exact max_eq_right (by linarith)
    have hgain : 0 < avgGain c := by
      unfold avgGain
      apply div_pos _ (by norm_num)
      have hnn : ∀ x ∈ (lastN 14 (deltas c)).map (fun d => max d 0), 0 ≤ x := by
        intro x hx
        simp only [List.mem_map] at hx
        obtain ⟨d, _, rfl⟩ := hx
        exact le_max_right d 0
      have hmem : max d0 0 ∈ (lastN 14 (deltas c)).map (fun d => max d 0) :=
        List.mem_map_of_mem _ hd0
      have hle := List.single_le_sum hnn _ hmem
      have hm0 : 0 < max d0 0 := lt_max_of_lt_left hd0pos
      linarith
    rw [rsiLast, if_neg hlen, if_neg (by rw [hloss]; exact lt_irrefl 0), if_pos hgain]

/-- C7 witness: 14 flat closes then one up-tick — a never-decreasing window
with one positive delta — has RSI exactly 100. -/
theorem rsi_bounds_witness :
    rsiLast (List.replicate 14 (1 : ℚ) ++ [2]) = some 100 :=
  (rsi_bounds (List.replicate 14 (1 : ℚ) ++ [2])).2
    (by norm_num [deltas, List.replicate_succ])
    (by norm_num [lastN, deltas, List.replicate_succ])
    (by norm_num [lastN, deltas, List.replicate_succ])

theorem window_cases (tf : String) : window tf = 60 ∨ window tf = 300 := by
  unfold window
  split_ifs <;> simp

theorem window_pos (tf : String) : 0 < window tf := by
  rcases window_cases tf with h | h <;> rw [h] <;> norm_num

theorem allowKey_congr (st1 st2 : Key → Option ℤ) (k : Key) (now : ℤ)
    (h : st1 k = st2 k) : allowKey st1 k now = allowKey st2 k now := by
  unfold allowKey
  rw [h]

theorem allow_elapsed (st : Key → Option ℤ) (k : Key) (now t0 : ℤ)
    (hst : st k = some t0) (ht : t0 ≤ now) (h : allowKey st k now = true) :
    window k.2 ≤ now - t0 := by
  unfold allowKey at h
  rw [hst] at h
  simp only [elapsedSecondsField, Bool.not_eq_true', decide_eq_false_iff_not, not_lt] at h
  rcases window_cases k.2 with hw | hw <;> rw [hw] at h ⊢ <;> omega

theorem allow_self_false (st : Key → Option ℤ) (k : Key) (now : ℤ)
    (hst : st k = some now) : allowKey st k now = false := by
  unfold allowKey
  rw [hst]
  simp only [elapsedSecondsField, sub_self, Bool.not_eq_false', decide_eq_true_eq]
  rw [Int.zero_emod]
  exact window_pos k.2

/-- Invariant carried through the fold of one tick: each key either still has
its pre-tick cooldown entry and no emission, or was emitted exactly once
after its gate passed against the pre-tick state, and now maps to `now`. -/
def TickInv (fetch : Key → Option (List ℚ)) (st0 : Key → Option ℤ) (now : ℤ)
    (acc : TickState) : Prop :=
  ∀ k : Key,
    (acc.st k = st0 k ∧ ∀ d, (k, d) ∉ acc.emits) ∨
    (acc.st k = some now ∧ allowKey st0 k now = true ∧ (∃ d, (k, d) ∈ acc.emits) ∧
      ∀ d, (k, d) ∈ acc.emits → analyze (fetch k) (modeOf k.2) = some d)

theorem tickInv_step (fetch : Key → Option (List ℚ)) (st0 : Key → Option ℤ) (now : ℤ)
    (acc : TickState) (k : Key) (h : TickInv fetch st0 now acc) :
    TickInv fetch st0 now (scanStep fetch now acc k) := by
  intro k2
  unfold scanStep
  by_cases ha : allowKey acc.st k now = true
  · rw [if_pos ha]
    cases hd : analyze (fetch k) (modeOf k.2) with
    | none => exact h k2
    | some d =>
        by_cases hk : k2 = k
        · subst hk
          have hleft : acc.st k2 = st0 k2 ∧ ∀ d2, (k2, d2) ∉ acc.emits := by
            rcases h k2 with hL | hR
            · exact hL
            · exact absurd ha (by rw [allow_self_false acc.st k2 now hR.1]; simp)
          right
          refine ⟨?_, ?_, ⟨d, ?_⟩, ?_⟩
          · show recordKey acc.st k2 now k2 = some now
            unfold recordKey
            rw [if_pos rfl]
          · rw [← allowKey_congr acc.st st0 k2 now hleft.1]
            exact ha
          · show (k2, d) ∈ acc.emits ++ [(k2, d)]
            simp
          · intro d2 hd2
            rw [List.mem_append] at hd2
            rcases hd2 with hin | hin
            · exact absurd hin (hleft.2 d2)
            · simp only [List.mem_singleton, Prod.mk.injEq, true_and] at hin
              rw [hin]
              exact hd
        · rcases h k2 with hL | hR
          · left
            constructor
            · show recordKey acc.st k now k2 = st0 k2
              unfold recordKey
              rw [if_neg hk]
              exact hL.1
            · intro d2 hd2
              rw [List.mem_append] at hd2
              rcases hd2 with hin | hin
              · exact hL.2 d2 hin
              · simp only [List.mem_singleton, Prod.mk.injEq] at hin
                exact hk hin.1
          · right
            refine ⟨?_, hR.2.1, ?_, ?_⟩
            · show recordKey acc.st k now k2 = some now
              unfold recordKey
              rw [if_neg hk]
              exact hR.1
            · obtain ⟨d2, hd2⟩ := hR.2.2.1
              exact ⟨d2, List.mem_append_left _ hd2⟩
            · intro d2 hd2
              rw [List.mem_append] at hd2
              rcases hd2 with hin | hin
              · exact hR.2.2.2 d2 hin
              · simp only [List.mem_singleton, Prod.mk.injEq] at hin
                exact absurd hin.1 hk
  · rw [if_neg ha]
    exact h k2

theorem tickInv_foldl (fetch : Key → Option (List ℚ)) (st0 : Key → Option ℤ) (now : ℤ) :
    ∀ (keys : List Key) (acc : TickState), TickInv fetch st0 now acc →
      TickInv fetch st0 now (keys.foldl (scanStep fetch now) acc)
  | [], _, h => h
  | k :: ks, acc, h =>
      tickInv_foldl fetch st0 now ks (scanStep fetch now acc k)
        (tickInv_step fetch st0 now acc k h)

/-- C3: cooldown/emission invariant of a `scan_market` tick starting from a
reachable state (all recorded timestamps in the past). Every emitted signal's
key either had no cooldown entry or its window had elapsed; the emitted
direction is exactly the non-NONE result of `analyze`, and the key's entry is
updated to `now`; and the entry of every key with no emission — in particular
every key whose verdict was NONE — is left untouched, so it stays eligible. -/
theorem scan_cooldown_emission_invariant (keys : List Key)
    (fetch : Key → Option (List ℚ)) (st : Key → Option ℤ) (now : ℤ)
    (hpast : ∀ k t0, st k = some t0 → t0 ≤ now) :
    (∀ k d, (k, d) ∈ (scan_market true keys fetch st now).emits →
      ((st k = none ∨ ∃ t0, st k = some t0 ∧ window k.2 ≤ now - t0) ∧
        analyze (fetch k) (modeOf k.2) = some d ∧
        (scan_market true keys fetch st now).st k = some now)) ∧
    (∀ k, (∀ d, (k, d) ∉ (scan_market true keys fetch st now).emits) →
      (scan_market true keys fetch st now).st k = st k) := by
  have hinv : TickInv fetch st now (scan_market true keys fetch st now) := by
    unfold scan_market
    rw [if_pos rfl]
    exact tickInv_foldl fetch st now keys ⟨st, []⟩
      (fun k => Or.inl ⟨rfl, fun d hd => by simp at hd⟩)
  constructor
  · intro k d hmem
    rcases hinv k with hL | hR
    · exact absurd hmem (hL.2 d)
    · refine ⟨?_, hR.2.2.2 d hmem, hR.1⟩
      cases hst : st k with
      | none => exact Or.inl rfl
      | some t0 =>
          exact Or.inr ⟨t0, rfl, allow_elapsed st k now t0 hst (hpast k t0 hst) hR.2.1⟩
  · intro k hnone
    rcases hinv k with hL | hR
    · exact hL.1
    · obtain ⟨d, hd⟩ := hR.2.2.1
      exact absurd hd (hnone d)

/-- C3 witness: one key recorded at time 0, scanned at time 100 with an
unavailable fetch — no emission happens, and the cooldown entry is unchanged. -/
theorem scan_cooldown_emission_invariant_witness :
    (scan_market true [(("EURUSD", "M1") : Key)] (fun _ => none)
        (fun _ => some 0) 100).st ("EURUSD", "M1") = some 0 :=
  (scan_cooldown_emission_invariant [("EURUSD", "M1")] (fun _ => none) (fun _ => some 0) 100
      (fun k t0 h => by injection h with h2; omega)).2
    ("EURUSD", "M1")
    (fun d hd => by simp [scan_market, scanStep, analyze, calcSnapshot] at hd)

/-- C4: the failing input — a key recorded at time 0 and re-checked exactly
one day later. The elapsed time (86400 s) is far beyond the 60-second M1
window, yet the gate still skips the key, because `timedelta.seconds` is the
seconds-of-day component: the code compares `86400 mod 86400 = 0 < 60`. This
contradicts the claim that the key is allowed for every delta at or after the
window boundary. -/
theorem cooldown_day_wrap :
    window "M1" ≤ 86400 - 0 ∧
    allowKey (recordKey (fun _ => none) ("EURUSD", "M1") 0) ("EURUSD", "M1") 86400 = false := by
  constructor
  · rw [show window "M1" = 60 by rw [window, if_pos rfl]]
    norm_num
  · show allowKey (recordKey (fun _ => none) ("EURUSD", "M1") 0) ("EURUSD", "M1") 86400 = false
    unfold allowKey recordKey
    rw [if_pos rfl]
    simp only [elapsedSecondsField, Bool.not_eq_false', decide_eq_true_eq]
    rw [show window ("EURUSD", "M1").2 = 60 by rw [window, if_pos rfl]]
    norm_num

theorem scanStep_st_other (fetch : Key → Option (List ℚ)) (now : ℤ) (acc : TickState)
    (k k2 : Key) (h : k2 ≠ k) : (scanStep fetch now acc k).st k2 = acc.st k2 := by
  unfold scanStep
  split_ifs with ha
  · cases hd : analyze (fetch k) (modeOf k.2) with
    | none => rfl
    | some d =>
        show recordKey acc.st k now k2 = acc.st k2
        unfold recordKey
        rw [if_neg h]
  · rfl

theorem scanStep_emits_filter_self (fetch : Key → Option (List ℚ)) (now : ℤ)
    (acc : TickState) (k0 : Key) :
    (scanStep fetch now acc k0).emits.filter (fun e => decide (e.1 ≠ k0)) =
      acc.emits.filter (fun e => decide (e.1 ≠ k0)) := by
  unfold scanStep
  split_ifs with ha
  · cases hd : analyze (fetch k0) (modeOf k0.2) with
    | none => rfl
    | some d =>
        show (acc.emits ++ [(k0, d)]).filter (fun e => decide (e.1 ≠ k0)) = _
        rw [List.filter_append]
        simp
  · rfl

theorem scanStep_agree (fetch1 fetch2 : Key → Option (List ℚ)) (now : ℤ) (k0 : Key)
    (acc1 acc2 : TickState) (k : Key) (hfk : k ≠ k0 → fetch1 k = fetch2 k)
    (hst : ∀ k2, k2 ≠ k0 → acc1.st k2 = acc2.st k2)
    (hem : acc1.emits.filter (fun e => decide (e.1 ≠ k0)) =
      acc2.emits.filter (fun e => decide (e.1 ≠ k0))) :
    (∀ k2, k2 ≠ k0 →
      (scanStep fetch1 now acc1 k).st k2 = (scanStep fetch2 now acc2 k).st k2) ∧
    (scanStep fetch1 now acc1 k).emits.filter (fun e => decide (e.1 ≠ k0)) =
      (scanStep fetch2 now acc2 k).emits.filter (fun e => decide (e.1 ≠ k0)) := by
  by_cases hk : k = k0
  · subst hk
    constructor
    · intro k2 h2
      rw [scanStep_st_other fetch1 now acc1 k k2 h2, scanStep_st_other fetch2 now acc2 k k2 h2]
      exact hst k2 h2
    · rw [scanStep_emits_filter_self, scanStep_emits_filter_self]
      exact hem
  · have hf : fetch1 k = fetch2 k := hfk hk
    have hak : allowKey acc1.st k now = allowKey acc2.st k now :=
      allowKey_congr acc1.st acc2.st k now (hst k hk)
    unfold scanStep
    rw [hf, hak]
    by_cases ha : allowKey acc2.st k now = true
    · rw [if_pos ha, if_pos ha]
      cases hd : analyze (fetch2 k) (modeOf k.2) with
      | none => exact ⟨hst, hem⟩
      | some d =>
          constructor
          · intro k2 h2
            show recordKey acc1.st k now k2 = recordKey acc2.st k now k2
            unfold recordKey
            split_ifs with hkk
            · rfl
            · exact hst k2 h2
          · show (acc1.emits ++ [(k, d)]).filter (fun e => decide (e.1 ≠ k0)) =
              (acc2.emits ++ [(k, d)]).filter (fun e => decide (e.1 ≠ k0))
            rw [List.filter_append, List.filter_append, hem]
    · rw [if_neg ha, if_neg ha]
      exact ⟨hst, hem⟩

theorem scanFold_agree (fetch1 fetch2 : Key → Option (List ℚ)) (now : ℤ) (k0 : Key)
    (hf : ∀ k, k ≠ k0 → fetch1 k = fetch2 k) :
    ∀ (keys : List Key) (acc1 acc2 : TickState),
      (∀ k2, k2 ≠ k0 → acc1.st k2 = acc2.st k2) →
      acc1.emits.filter (fun e => decide (e.1 ≠ k0)) =
        acc2.emits.filter (fun e => decide (e.1 ≠ k0)) →
      (∀ k2, k2 ≠ k0 →
        (keys.foldl (scanStep fetch1 now) acc1).st k2 =
          (keys.foldl (scanStep fetch2 now) acc2).st k2) ∧
      (keys.foldl (scanStep fetch1 now) acc1).emits.filter (fun e => decide (e.1 ≠ k0)) =
        (keys.foldl (scanStep fetch2 now) acc2).emits.filter (fun e => decide (e.1 ≠ k0))
  | [], _, _, hst, hem => ⟨hst, hem⟩
  | k :: ks, acc1, acc2, hst, hem => by
      have hstep := scanStep_agree fetch1 fetch2 now k0 acc1 acc2 k (hf k) hst hem
      exact scanFold_agree fetch1 fetch2 now k0 hf ks
        (scanStep fetch1 now acc1 k) (scanStep fetch2 now acc2 k) hstep.1 hstep.2

/-- C5: per-key failure isolation — on one tick, the outcome for every key
other than `k0` (both the emitted signals and the cooldown entries) is
unchanged when the provider's answer for `k0` is replaced by anything else
(an error/empty download, a short series, or different data): a failure on
one key never prevents or alters the evaluation of the remaining keys. -/
theorem per_key_isolation (active : Bool) (keys : List Key)
    (fetch1 fetch2 : Key → Option (List ℚ)) (st : Key → Option ℤ) (now : ℤ) (k0 : Key)
    (hf : ∀ k, k ≠ k0 → fetch1 k = fetch2 k) :
    (scan_market active keys fetch1 st now).emits.filter (fun e => decide (e.1 ≠ k0)) =
      (scan_market active keys fetch2 st now).emits.filter (fun e => decide (e.1 ≠ k0)) ∧
    ∀ k, k ≠ k0 →
      (scan_market active keys fetch1 st now).st k =
        (scan_market active keys fetch2 st now).st k := by
  unfold scan_market
  by_cases ha : active = true
  · rw [if_pos ha, if_pos ha]
    have h := scanFold_agree fetch1 fetch2 now k0 hf keys ⟨st, []⟩ ⟨st, []⟩
      (fun _ _ => rfl) rfl
    exact ⟨h.2, h.1⟩
  · rw [if_neg ha, if_neg ha]
    exact ⟨rfl, fun _ _ => rfl⟩

/-- C5 witness: with a single configured key, replacing that key's fetch
result by an error (`none`) versus an empty series leaves the (here empty)
set of signals for all other keys identical. -/
theorem per_key_isolation_witness :
    (scan_market true [(("EURUSD", "M1") : Key)] (fun _ => none)
        (fun _ => none) 0).emits.filter
        (fun e => decide (e.1 ≠ (("EURUSD", "M1") : Key))) =
      (scan_market true [(("EURUSD", "M1") : Key)]
          (fun k => if k = (("EURUSD", "M1") : Key) then some [] else none)
          (fun _ => none) 0).emits.filter
        (fun e => decide (e.1 ≠ (("EURUSD", "M1") : Key))) :=
  (per_key_isolation true [("EURUSD", "M1")] (fun _ => none)
      (fun k => if k = (("EURUSD", "M1") : Key) then some [] else none)
      (fun _ => none) 0 ("EURUSD", "M1") (fun k hk => by simp [hk])).1

/-- C9: the summary computes `win/(win+loss)*100` when `win+loss > 0` and
exactly 0 when the total is 0 (no division by zero is possible); the daily
report reports the same winrate and resets both counters to zero. -/
theorem winrate_summary_daily (t : Tally) :
    (0 < t.win + t.loss → summary t = (t.win : ℚ) / ((t.win : ℚ) + (t.loss : ℚ)) * 100) ∧
    (t.win + t.loss = 0 → summary t = 0) ∧
    (daily_report t).1 = summary t ∧ (daily_report t).2 = ⟨0, 0⟩ := by
  refine ⟨fun h => ?_, fun h => ?_, rfl, rfl⟩
  · simp [summary, winrate, h]
  · simp [summary, winrate, h]

/-- C9 witness: at tally (3 wins, 1 loss) the summary is `3/(3+1)*100`, and
at (0, 0) it is 0. -/
theorem winrate_summary_daily_witness :
    summary ⟨3, 1⟩ = ((3 : ℕ) : ℚ) / (((3 : ℕ) : ℚ) + ((1 : ℕ) : ℚ)) * 100 ∧
    summary ⟨0, 0⟩ = 0 :=
  ⟨(winrate_summary_daily ⟨3, 1⟩).1 (by decide),
   (winrate_summary_daily ⟨0, 0⟩).2.1 (by decide)⟩

end Bot
